import Mathlib

/-!
Verification of the crop/pad transform module of a medical-imaging
library.  Channel-first numeric arrays are embedded as a shape together
with a total indexing function; numpy uint16 casts are embedded as
explicit reduction modulo 2^16; fallible constructors and calls return
Except values carrying the original error messages.
-/

set_option maxHeartbeats 1000000

/-- Multi-dimensional channel-first numeric array: a shape together with a
total indexing function giving the value at each index vector; values at
out-of-bounds index vectors are irrelevant to array equality. -/
structure Img where
  shape : List Nat
  data : List Nat → Int

/-- Bounds test of an index vector against a shape: same rank and every
coordinate strictly below the corresponding extent. -/
def inBoundsB : List Nat → List Nat → Bool
  | [], [] => true
  | s :: ss, i :: is => decide (i < s) && inBoundsB ss is
  | _, _ => false

/-- Pointwise less-or-equal of two coordinate vectors, the embedding of
np.all applied to an elementwise comparison of equal-length arrays. -/
def leAll : List Nat → List Nat → Bool
  | x :: xs, y :: ys => decide (x ≤ y) && leAll xs ys
  | _, _ => true

/-- Interior test of the zero-fill np.pad embedding: an index lies in the
copied region when before <= i < before + extent in every dimension. -/
def inPadInterior : List Nat → List Nat → List Nat → Bool
  | i :: is, b :: bs, s :: ss => decide (b ≤ i) && decide (i < b + s) && inPadInterior is bs ss
  | _, _, _ => true

/-- Embedding of np.pad with mode "constant" and fill value 0, the mode the
transforms here are configured with: each dimension grows to
before + extent + after, interior values are the input values shifted by the
leading pad amount, everything else is the constant 0. -/
def npPadConstant (img : Img) (padWidth : List (Nat × Nat)) : Img where
  shape := List.zipWith (fun s p => p.1 + s + p.2) img.shape padWidth
  data := fun idx =>
    let before := padWidth.map Prod.fst
    if inPadInterior idx before img.shape then
      img.data (List.zipWith (fun i b => i - b) idx before)
    else 0

/-- Symmetric split of a required pad width w as (w // 2, w - w // 2). -/
def symPad (target dim : Nat) : Nat × Nat :=
  ((target - dim) / 2, (target - dim) - (target - dim) / 2)

/-- One-sided split of a required pad width: everything after the data. -/
def endPad (target dim : Nat) : Nat × Nat := (0, target - dim)

/-- Embedding of SpatialPad._determine_data_pad_width: per spatial dimension
the required width is max(target - actual, 0), which is truncated natural
subtraction, split symmetrically or all at the end per the method. -/
def determineDataPadWidth (spatialSize : List Nat) (method : String)
    (dataShape : List Nat) : List (Nat × Nat) :=
  if method = "symmetric" then List.zipWith symPad spatialSize dataShape
  else List.zipWith endPad spatialSize dataShape

/-- Embedding of SpatialPad.__call__ with the constant mode: when every pad
width is zero the input is returned unchanged, otherwise np.pad is applied
with a leading (0, 0) entry for the channel dimension. -/
def spatialPadCall (spatialSize : List Nat) (method : String) (img : Img) : Img :=
  let dataPadWidth := determineDataPadWidth spatialSize method (img.shape.drop 1)
  let allPadWidth := (0, 0) :: dataPadWidth
  if allPadWidth.all (fun p => p.1 == 0 && p.2 == 0) then img
  else npPadConstant img allPadWidth

def msgBorderValue : String :=
  "spatial_border must be int number and can not be less than 0."

def msgBorderLength : String := "unsupported length of spatial_border definition."

/-- Consumes a flat list of 2n border values into n (before, after) pairs in
dimension order. -/
def pairUp : List Int → List (Nat × Nat)
  | a :: b :: rest => (a.toNat, b.toNat) :: pairUp rest
  | _ => []

/-- Embedding of BorderPad.__call__ with the constant mode: every border
value is first validated non-negative, then the specification is resolved by
its length (one value broadcast to every dimension, n values mirrored per
dimension, 2n values consumed pairwise), any other length is rejected. -/
def borderPadCall (spatialBorder : List Int) (img : Img) : Except String Img :=
  let spatialShape := img.shape.drop 1
  if spatialBorder.any (fun b => decide (b < 0)) then .error msgBorderValue
  else if spatialBorder.length = 1 then
    .ok (npPadConstant img ((0, 0) :: List.replicate spatialShape.length
      ((spatialBorder.headD 0).toNat, (spatialBorder.headD 0).toNat)))
  else if spatialBorder.length = spatialShape.length then
    .ok (npPadConstant img ((0, 0) :: spatialBorder.map (fun b => (b.toNat, b.toNat))))
  else if spatialBorder.length = 2 * spatialShape.length then
    .ok (npPadConstant img ((0, 0) :: pairUp spatialBorder))
  else .error msgBorderLength

/-- Ceiling division on naturals, the value of int(np.ceil(dim / k)) for a
positive k. -/
def ceilDiv (dim k : Nat) : Nat := (dim + k - 1) / k

/-- New size of one spatial dimension under DivisiblePad: the next multiple
of k at or above the current size for k > 0, the current size otherwise. -/
def newDimF (k : Int) (dim : Nat) : Nat :=
  if 0 < k then ceilDiv dim k.toNat * k.toNat else dim

/-- Embedding of DivisiblePad.__call__: computes the per-dimension target
size and delegates to SpatialPad with method "symmetric"; the broadcast of a
scalar k by ensure_tuple_rep is modelled as an explicit per-dimension list. -/
def divisiblePadCall (k : List Int) (img : Img) : Img :=
  spatialPadCall (List.zipWith newDimF k (img.shape.drop 1)) "symmetric" img

def msgRoiStart : String :=
  "all elements of roi_start must be greater than or equal to 0."

def msgRoiEnd : String := "all elements of roi_end must be positive."

def msgRoiRange : String := "invalid roi range."

def msgStartOOB : String := "roi start out of image space."

def msgEndOOB : String := "roi end out of image space."

/-- Cast of a Python integer to numpy uint16: reduction modulo 2^16. -/
def u16 (x : Int) : Nat := (x % 65536).toNat

/-- Per-dimension ROI start derived from center and size in uint16
arithmetic: center - size // 2 wrapped modulo 2^16. -/
def startF (c s : Int) : Nat := (u16 c + 65536 - u16 s / 2) % 65536

/-- Per-dimension ROI end in uint16 arithmetic: start + size wrapped
modulo 2^16. -/
def endF (c s : Int) : Nat := (startF c s + u16 s) % 65536

/-- Elementwise np.subtract(center, np.floor_divide(size, 2)) on uint16. -/
def cropStartCS (center size : List Int) : List Nat := List.zipWith startF center size

/-- Elementwise np.add(start, size) on uint16. -/
def cropEndCS (center size : List Int) : List Nat := List.zipWith endF center size

/-- Constructed SpatialCrop: the validated uint16 start and end vectors. -/
structure SpatialCropT where
  roi_start : List Nat
  roi_end : List Nat

/-- Shared validation of SpatialCrop.__init__: all roi_start >= 0 (a check
over uint16 values), all roi_end > 0, and roi_end >= roi_start elementwise. -/
def validateRoi (s e : List Nat) : Except String SpatialCropT :=
  if ! s.all (fun x => decide (0 ≤ x)) then .error msgRoiStart
  else if ! e.all (fun x => decide (0 < x)) then .error msgRoiEnd
  else if ! leAll s e then .error msgRoiRange
  else .ok ⟨s, e⟩

/-- Embedding of SpatialCrop.__init__ on the (roi_center, roi_size) path:
both arrays are cast to uint16, start = center - size // 2 and
end = start + size are computed elementwise in uint16, then validated. -/
def spatialCropInitCS (center size : List Int) : Except String SpatialCropT :=
  validateRoi (cropStartCS center size) (cropEndCS center size)

/-- Embedding of SpatialCrop.__init__ on the (roi_start, roi_end) path: both
arrays are cast to uint16 and validated. -/
def spatialCropInitSE (roiStart roiEnd : List Int) : Except String SpatialCropT :=
  validateRoi (roiStart.map u16) (roiEnd.map u16)

/-- Number of checked spatial dimensions at call time: the minimum of the
ROI rank and the actual spatial rank. -/
def sdOf (t : SpatialCropT) (img : Img) : Nat :=
  min t.roi_start.length (img.shape.drop 1).length

/-- Pure slicing underlying SpatialCrop.__call__: full channel dimension,
the half-open range per checked spatial dimension, untouched spatial
dimensions beyond the ROI rank. -/
def cropImg (img : Img) (s e : List Nat) : Img where
  shape := img.shape.take 1 ++ List.zipWith (fun ei si => ei - si) e s
    ++ (img.shape.drop 1).drop s.length
  data := fun idx =>
    img.data (idx.take 1
      ++ List.zipWith (fun i si => i + si) ((idx.drop 1).take s.length) s
      ++ idx.drop (1 + s.length))

/-- Embedding of SpatialCrop.__call__: bounds-checks the ROI against the
actual spatial shape on the first sd dimensions, then slices. -/
def spatialCropCall (t : SpatialCropT) (img : Img) : Except String Img :=
  let maxEnd := img.shape.drop 1
  let sd := sdOf t img
  if ! leAll (t.roi_start.take sd) (maxEnd.take sd) then .error msgStartOOB
  else if ! leAll (t.roi_end.take sd) (maxEnd.take sd) then .error msgEndOOB
  else .ok (cropImg img (t.roi_start.take sd) (t.roi_end.take sd))

/-- Embedding of CenterSpatialCrop.__call__: centers at shape // 2 per
spatial dimension of the live input and delegates to SpatialCrop on the
center + size path. -/
def centerSpatialCropCall (roiSize : List Int) (img : Img) : Except String Img :=
  match spatialCropInitCS ((img.shape.drop 1).map (fun (i : Nat) => ((i / 2 : Nat) : Int))) roiSize with
  | .error m => .error m
  | .ok t => spatialCropCall t img

/-- Pad-then-crop pipeline of the round-trip property: DivisiblePad followed
by CenterSpatialCrop at the original spatial shape. -/
def padCropRoundTrip (k : List Int) (img : Img) : Except String Img :=
  centerSpatialCropCall ((img.shape.drop 1).map (fun (i : Nat) => (i : Int)))
    (divisiblePadCall k img)

/-- Modelled from the spec: the shared seedable pseudo-random generator; its
internal state is a natural number advanced by a fixed deterministic update
(which concrete update is irrelevant to the claims). -/
def genNext (g : Nat) : Nat := (g * 1664525 + 1013904223) % 4294967296

/-- Modelled from the spec: seeding reinitializes the generator state from
the integer seed. -/
def seedGen (seed : Nat) : Nat := seed

/-- Modelled from the spec: draw(low, high) returns an integer in
[low, high) and advances the generator state. -/
def genDraw (g low high : Nat) : Nat × Nat :=
  (low + g % (if high ≤ low then 1 else high - low), genNext g)

/-- Modelled from the spec: size resolution of RandSpatialCrop under
random_size, one independent draw per dimension in dimension order from the
range [roi_size[i], img_size[i] + 1). -/
def drawSizes : List Nat → List Nat → Nat → List Nat × Nat
  | lo :: los, d :: ds, g =>
    let p := genDraw g lo (d + 1)
    let rest := drawSizes los ds p.2
    (p.1 :: rest.1, rest.2)
  | _, _, g => ([], g)

/-- Modelled from the spec: get_valid_patch_size clamps the requested patch
size so that the patch fits inside the image. -/
def getValidPatchSize (imgSize patchSize : List Nat) : List Nat :=
  List.zipWith min imgSize patchSize

/-- Modelled from the spec: get_random_patch draws a start offset per
dimension in dimension order and yields per-dimension (start, stop) pairs. -/
def getRandomPatch : List Nat → List Nat → Nat → List (Nat × Nat) × Nat
  | d :: ds, v :: vs, g =>
    let p := genDraw g 0 (d - v + 1)
    let rest := getRandomPatch ds vs p.2
    ((p.1, p.1 + v) :: rest.1, rest.2)
  | _, _, g => ([], g)

/-- Cached randomized parameters of RandSpatialCrop: the resolved size and,
when the center is randomized, the cached per-dimension slices. -/
structure RandCropState where
  size : List Nat
  slices : Option (List (Nat × Nat))

/-- Embedding of RandSpatialCrop.randomize: resolves the per-dimension size
(randomly when random_size) and, when random_center, draws and caches the
slices of a valid random patch; the configured roi_size is taken already in
per-dimension form, as produced by ensure_tuple_rep. -/
def randSpatialCropRandomize (roiSize : List Nat) (randomCenter randomSize : Bool)
    (imgSize : List Nat) (g : Nat) : RandCropState × Nat :=
  let szg := if randomSize then drawSizes roiSize imgSize g else (roiSize, g)
  if randomCenter then
    let vp := getRandomPatch imgSize (getValidPatchSize imgSize szg.1) szg.2
    (⟨szg.1, some vp.1⟩, vp.2)
  else (⟨szg.1, none⟩, szg.2)

def msgNoSlices : String := "slices have not been randomized."

/-- Slicing by cached per-dimension (start, stop) pairs over every spatial
dimension, with the channel dimension kept in full. -/
def sliceImg (img : Img) (sl : List (Nat × Nat)) : Img :=
  cropImg img (sl.map Prod.fst) (sl.map Prod.snd)

/-- Embedding of RandSpatialCrop.__call__: randomizes from the live input
shape, then slices at the cached random patch (random_center) or delegates
to CenterSpatialCrop with the resolved size. -/
def randSpatialCropCall (roiSize : List Nat) (randomCenter randomSize : Bool)
    (img : Img) (g : Nat) : Except String Img × Nat :=
  let stg := randSpatialCropRandomize roiSize randomCenter randomSize (img.shape.drop 1) g
  if randomCenter then
    match stg.1.slices with
    | some sl => (.ok (sliceImg img sl), stg.2)
    | none => (.error msgNoSlices, stg.2)
  else (centerSpatialCropCall (stg.1.size.map (fun (n : Nat) => (n : Int))) img, stg.2)

def msgNumSamples : String := "number of samples must be greater than 0."

/-- Configuration of a validly constructed RandSpatialCropSamples. -/
structure RandCropSamplesT where
  num_samples : Int
  roi_size : List Nat
  random_center : Bool
  random_size : Bool

/-- Embedding of RandSpatialCropSamples.__init__: rejects num_samples < 1,
otherwise stores the configuration of the wrapped RandSpatialCrop. -/
def randSpatialCropSamplesInit (roiSize : List Nat) (numSamples : Int)
    (randomCenter randomSize : Bool) : Except String RandCropSamplesT :=
  if numSamples < 1 then .error msgNumSamples
  else .ok ⟨numSamples, roiSize, randomCenter, randomSize⟩

/-- Repeated invocation of the wrapped random cropper, threading the shared
generator state through the sequence; as in the source list comprehension,
the first crop that raises aborts the whole sequence with that exception,
so a list is produced only when every crop succeeds. -/
def repeatCrop (roiSize : List Nat) (randomCenter randomSize : Bool) (img : Img) :
    Nat → Nat → Except String (List Img) × Nat
  | 0, g => (.ok [], g)
  | n + 1, g =>
    match randSpatialCropCall roiSize randomCenter randomSize img g with
    | (.error m, g2) => (.error m, g2)
    | (.ok o, g2) =>
      match repeatCrop roiSize randomCenter randomSize img n g2 with
      | (.error m, g3) => (.error m, g3)
      | (.ok os, g3) => (.ok (o :: os), g3)

/-- Embedding of RandSpatialCropSamples.__call__: num_samples crops of the
same input, each re-randomized from the shared generator; if any wrapped
crop raises, the exception propagates and no list is returned. -/
def randSpatialCropSamplesCall (t : RandCropSamplesT) (img : Img) (g : Nat) :
    Except String (List Img) × Nat :=
  repeatCrop t.roi_size t.random_center t.random_size img t.num_samples.toNat g

/-- Whether a fallible construction succeeded. -/
def cropInitOk : Except String SpatialCropT → Bool
  | .ok _ => true
  | .error _ => false

/-! ### Helper lemmas -/

theorem zipWith_all_zero (f : Nat → Nat → Nat × Nat)
    (hf : ∀ t d, t ≤ d → f t d = (0, 0)) :
    ∀ (a b : List Nat), (∀ p ∈ List.zip a b, p.1 ≤ p.2) →
      (List.zipWith f a b).all (fun p => p.1 == 0 && p.2 == 0) = true := by
  intro a
  induction a with
  | nil => intro b _; simp
  | cons x xs ih =>
    intro b hb
    cases b with
    | nil => simp
    | cons y ys =>
      have hx : x ≤ y := hb (x, y) (by simp [List.zip_cons_cons])
      simp only [List.zipWith_cons_cons, List.all_cons]
      rw [hf x y hx]
      have ht := ih ys fun q hq => hb q (by simp [List.zip_cons_cons, hq])
      simp [ht]

theorem getD_zipWith (f : Nat → Nat → Nat × Nat) :
    ∀ (a b : List Nat) (i : Nat), i < a.length → i < b.length →
      (List.zipWith f a b).getD i (0, 0) = f (a.getD i 0) (b.getD i 0) := by
  intro a
  induction a with
  | nil => intro b i h1 _; simp at h1
  | cons x xs ih =>
    intro b i h1 h2
    cases b with
    | nil => simp at h2
    | cons y ys =>
      cases i with
      | zero => rfl
      | succ j =>
        simp only [List.zipWith_cons_cons, List.getD_cons_succ]
        exact ih ys j (by simpa using h1) (by simpa using h2)

theorem pairUp_replicate (v : Int) :
    ∀ n, pairUp (List.replicate (2 * n) v) = List.replicate n (v.toNat, v.toNat) := by
  intro n
  induction n with
  | zero => rfl
  | succ m ih =>
    have h2 : 2 * (m + 1) = (2 * m) + 1 + 1 := by ring
    rw [h2, List.replicate_succ, List.replicate_succ, pairUp, ih, List.replicate_succ]

theorem any_neg_replicate (v : Int) (hv : 0 ≤ v) (n : Nat) :
    (List.replicate n v).any (fun b => decide (b < 0)) = false := by
  induction n with
  | zero => rfl
  | succ m ih =>
    rw [List.replicate_succ, List.any_cons, ih]
    simp only [Bool.or_false, decide_eq_false_iff_not]
    omega

/-! ### C4: SpatialPad identity short-circuit -/

/-- C4: for every input array whose spatial shape already meets or exceeds
the configured target in every dimension (so every computed pad width is
zero), SpatialPad returns the input array unchanged. -/
theorem spatialPad_identity (spatialSize : List Nat) (method : String) (img : Img)
    (hm : method = "symmetric" ∨ method = "end")
    (hrank : spatialSize.length ≤ (img.shape.drop 1).length)
    (h : ∀ p ∈ List.zip spatialSize (img.shape.drop 1), p.1 ≤ p.2) :
    spatialPadCall spatialSize method img = img := by
  have hzero :
      ((0, 0) :: determineDataPadWidth spatialSize method (img.shape.drop 1)).all
        (fun p => p.1 == 0 && p.2 == 0) = true := by
    rw [List.all_cons]
    have hd : (determineDataPadWidth spatialSize method (img.shape.drop 1)).all
        (fun p => p.1 == 0 && p.2 == 0) = true := by
      unfold determineDataPadWidth
      split
      · exact zipWith_all_zero symPad
          (fun t d htd => by simp [symPad, Nat.sub_eq_zero_of_le htd]) _ _ h
      · exact zipWith_all_zero endPad
          (fun t d htd => by simp [endPad, Nat.sub_eq_zero_of_le htd]) _ _ h
    rw [hd]; rfl
  unfold spatialPadCall
  simp only [hzero, if_true]

/-- C4 witness at a concrete input. -/
def imgW4 : Img := ⟨[1, 2, 3], fun idx => (idx.headD 0 : Int) + 7⟩

theorem spatialPad_identity_witness :
    (("symmetric" : String) = "symmetric" ∨ ("symmetric" : String) = "end") ∧
    [2, 3].length ≤ (imgW4.shape.drop 1).length ∧
    (∀ p ∈ List.zip [2, 3] (imgW4.shape.drop 1), p.1 ≤ p.2) ∧
    spatialPadCall [2, 3] "symmetric" imgW4 = imgW4 :=
  ⟨Or.inl rfl, by decide, by decide,
    spatialPad_identity [2, 3] "symmetric" imgW4 (Or.inl rfl) (by decide) (by decide)⟩

/-! ### C5: symmetric pad split -/

/-- C5: SpatialPad with method "symmetric" computes the required width
w = max(target[i] - input_shape[i], 0) (truncated subtraction below) and
splits it as (w // 2, w - w // 2); for every odd w the leading amount is
floor(w / 2) = (w - 1) / 2 and the trailing amount is ceil(w / 2) = (w + 1) / 2. -/
theorem spatialPad_symmetric_split (spatialSize dataShape : List Nat) (i : Nat)
    (h1 : i < spatialSize.length) (h2 : i < dataShape.length) :
    (determineDataPadWidth spatialSize "symmetric" dataShape).getD i (0, 0)
      = ((spatialSize.getD i 0 - dataShape.getD i 0) / 2,
         (spatialSize.getD i 0 - dataShape.getD i 0)
           - (spatialSize.getD i 0 - dataShape.getD i 0) / 2) ∧
    ((spatialSize.getD i 0 - dataShape.getD i 0) % 2 = 1 →
      ((determineDataPadWidth spatialSize "symmetric" dataShape).getD i (0, 0)).1
          = ((spatialSize.getD i 0 - dataShape.getD i 0) - 1) / 2 ∧
      ((determineDataPadWidth spatialSize "symmetric" dataShape).getD i (0, 0)).2
          = ((spatialSize.getD i 0 - dataShape.getD i 0) + 1) / 2) := by
  have hmain : (determineDataPadWidth spatialSize "symmetric" dataShape).getD i (0, 0)
      = symPad (spatialSize.getD i 0) (dataShape.getD i 0) := by
    unfold determineDataPadWidth
    rw [if_pos rfl]
    exact getD_zipWith symPad spatialSize dataShape i h1 h2
  rw [hmain]
  unfold symPad
  refine ⟨rfl, fun hodd => ⟨?_, ?_⟩⟩ <;> omega

theorem spatialPad_symmetric_split_witness :
    0 < [8].length ∧ 0 < [3].length ∧
    ((determineDataPadWidth [8] "symmetric" [3]).getD 0 (0, 0)
      = (([8].getD 0 0 - [3].getD 0 0) / 2,
         ([8].getD 0 0 - [3].getD 0 0) - ([8].getD 0 0 - [3].getD 0 0) / 2) ∧
    (([8].getD 0 0 - [3].getD 0 0) % 2 = 1 →
      ((determineDataPadWidth [8] "symmetric" [3]).getD 0 (0, 0)).1
          = (([8].getD 0 0 - [3].getD 0 0) - 1) / 2 ∧
      ((determineDataPadWidth [8] "symmetric" [3]).getD 0 (0, 0)).2
          = (([8].getD 0 0 - [3].getD 0 0) + 1) / 2)) :=
  ⟨by decide, by decide, spatialPad_symmetric_split [8] [3] 0 (by decide) (by decide)⟩

/-! ### C6: BorderPad negative border rejection -/

/-- C6: a BorderPad call whose border specification contains a negative value
fails with the invalid-argument error; the validation is the first step of
the call, before any padded array is produced, so no output array exists. -/
theorem borderPad_negative_error (spatialBorder : List Int) (img : Img)
    (h : ∃ b ∈ spatialBorder, b < 0) :
    borderPadCall spatialBorder img = .error msgBorderValue := by
  unfold borderPadCall
  have hany : spatialBorder.any (fun b => decide (b < 0)) = true := by
    rcases h with ⟨b, hb, hneg⟩
    exact List.any_eq_true.mpr ⟨b, hb, by simpa⟩
  simp only [hany, if_true]

def imgW6 : Img := ⟨[1, 4], fun _ => 3⟩

theorem borderPad_negative_error_witness :
    (∃ b ∈ [(-1 : Int)], b < 0) ∧
    borderPadCall [(-1 : Int)] imgW6 = .error msgBorderValue :=
  ⟨by decide, borderPad_negative_error [(-1 : Int)] imgW6 (by decide)⟩

/-! ### C7: BorderPad broadcast equivalence -/

theorem borderPad_single_eval (v : Int) (hv : 0 ≤ v) (img : Img) :
    borderPadCall [v] img
      = .ok (npPadConstant img
          ((0, 0) :: List.replicate (img.shape.drop 1).length (v.toNat, v.toNat))) := by
  have hvneg : (decide (v < 0)) = false := by simp; omega
  unfold borderPadCall
  simp [hvneg]

theorem borderPad_replicate_eval (v : Int) (hv : 0 ≤ v) (img : Img) (n : Nat)
    (hn : (img.shape.drop 1).length = n) :
    borderPadCall (List.replicate n v) img
      = .ok (npPadConstant img ((0, 0) :: List.replicate n (v.toNat, v.toNat))) := by
  have hn2 : img.shape.length - 1 = n := by simpa using hn
  unfold borderPadCall
  match n, hn, hn2 with
  | 0, hn, hn2 => simp [hn, hn2]
  | 1, hn, hn2 => simp [any_neg_replicate v hv, hn, hn2, hv]
  | (m + 2), hn, hn2 => simp [any_neg_replicate v hv, hn, hn2, List.map_replicate]

theorem borderPad_replicate2_eval (v : Int) (hv : 0 ≤ v) (img : Img) (n : Nat)
    (hn : (img.shape.drop 1).length = n) :
    borderPadCall (List.replicate (2 * n) v) img
      = .ok (npPadConstant img ((0, 0) :: List.replicate n (v.toNat, v.toNat))) := by
  have hn2 : img.shape.length - 1 = n := by simpa using hn
  unfold borderPadCall
  rcases n with _ | m
  · simp [hn, hn2]
  · have c1 : ¬ 2 * (m + 1) = 1 := by omega
    have c2 : ¬ 2 * (m + 1) = (m + 1) := by omega
    simp [any_neg_replicate v hv, hn, hn2, c1, c2, pairUp_replicate]

/-- C7: for every non-negative integer v and every channel-first array with n
spatial dimensions, BorderPad with the single value v, with the n-value list
[v, ..., v], and with the 2n-value list [v, v, ..., v, v] produce equal
outputs: the single value broadcasts to (v, v) on every spatial dimension. -/
theorem borderPad_broadcast (v : Int) (img : Img) (hv : 0 ≤ v) :
    borderPadCall [v] img
      = borderPadCall (List.replicate (img.shape.drop 1).length v) img ∧
    borderPadCall [v] img
      = borderPadCall (List.replicate (2 * (img.shape.drop 1).length) v) img := by
  rw [borderPad_single_eval v hv img, borderPad_replicate_eval v hv img _ rfl,
    borderPad_replicate2_eval v hv img _ rfl]
  exact ⟨rfl, rfl⟩

def imgW7 : Img := ⟨[1, 4, 5], fun idx => (idx.headD 0 : Int) + 1⟩

theorem borderPad_broadcast_witness :
    ((0 : Int) ≤ 2) ∧
    (borderPadCall [(2 : Int)] imgW7
      = borderPadCall (List.replicate (imgW7.shape.drop 1).length 2) imgW7 ∧
    borderPadCall [(2 : Int)] imgW7
      = borderPadCall (List.replicate (2 * (imgW7.shape.drop 1).length) 2) imgW7) :=
  ⟨by decide, borderPad_broadcast 2 imgW7 (by decide)⟩

/-! ### C8: RandSpatialCrop reseeded determinism -/

/-- C8: two RandSpatialCrop calls with the shared generator reseeded to the
same value immediately before each call, on the same input, produce identical
outputs; moreover the randomized parameters are a deterministic function of
the generator state and the input shape alone, so inputs of equal shape lead
to identical randomized size and placement. -/
theorem randSpatialCrop_reseed_deterministic (roiSize : List Nat)
    (randomCenter randomSize : Bool) (img img2 : Img) (seed : Nat)
    (hshape : img2.shape = img.shape) :
    (randSpatialCropCall roiSize randomCenter randomSize img (seedGen seed)).1
      = (randSpatialCropCall roiSize randomCenter randomSize img (seedGen seed)).1 ∧
    randSpatialCropRandomize roiSize randomCenter randomSize
        (img2.shape.drop 1) (seedGen seed)
      = randSpatialCropRandomize roiSize randomCenter randomSize
          (img.shape.drop 1) (seedGen seed) := by
  refine ⟨rfl, ?_⟩
  rw [hshape]

def imgW8a : Img := ⟨[1, 6, 6], fun idx => (idx.getD 1 0 : Int)⟩

def imgW8b : Img := ⟨[1, 6, 6], fun _ => 0⟩

theorem randSpatialCrop_reseed_deterministic_witness :
    imgW8b.shape = imgW8a.shape ∧
    ((randSpatialCropCall [2, 2] true true imgW8a (seedGen 42)).1
      = (randSpatialCropCall [2, 2] true true imgW8a (seedGen 42)).1 ∧
    randSpatialCropRandomize [2, 2] true true (imgW8b.shape.drop 1) (seedGen 42)
      = randSpatialCropRandomize [2, 2] true true (imgW8a.shape.drop 1) (seedGen 42)) :=
  ⟨rfl, randSpatialCrop_reseed_deterministic [2, 2] true true imgW8a imgW8b 42 rfl⟩

/-! ### C9: RandSpatialCropSamples validation and cardinality (corrected) -/

theorem repeatCrop_length (roiSize : List Nat) (randomCenter randomSize : Bool)
    (img : Img) : ∀ (n g : Nat) (out : List Img),
    (repeatCrop roiSize randomCenter randomSize img n g).1 = .ok out →
    out.length = n := by
  intro n
  induction n with
  | zero =>
    intro g out h
    obtain rfl : [] = out := Except.ok.inj h
    rfl
  | succ m ih =>
    intro g out h
    unfold repeatCrop at h
    rcases hog : randSpatialCropCall roiSize randomCenter randomSize img g with ⟨r1, g2⟩
    rw [hog] at h
    cases r1 with
    | error s => simp at h
    | ok o =>
      simp only at h
      rcases hrest : repeatCrop roiSize randomCenter randomSize img m g2 with ⟨r2, g3⟩
      rw [hrest] at h
      cases r2 with
      | error s => simp at h
      | ok os =>
        simp only at h
        have hout : o :: os = out := Except.ok.inj h
        have hlen : os.length = m := by
          apply ih g2 os
          rw [hrest]
        rw [← hout]
        simp [hlen]

def imgC9 : Img := ⟨[1, 3], fun _ => 1⟩

/-- C9 counterexample: the instance with roi_size [5], num_samples 2 and
random_center = random_size = False is validly constructed, yet on an input
of spatial size 3 the first wrapped crop raises the invalid-ROI exception
(center 1, uint16 start 65535, end 4 fails end >= start), the list
comprehension aborts, and no list is returned — so the call does not return
a list of length num_samples for every input. -/
theorem randSpatialCropSamples_cex :
    randSpatialCropSamplesInit [5] 2 false false = .ok ⟨2, [5], false, false⟩ ∧
    (1 : Int) ≤ 2 ∧
    (randSpatialCropSamplesCall ⟨2, [5], false, false⟩ imgC9 0).1
      = .error msgRoiRange :=
  ⟨rfl, by decide, rfl⟩

/-- C9 amended: constructing RandSpatialCropSamples with num_samples < 1
fails with the invalid-argument error; for every validly constructed
instance and every input array, whenever the call does return a list (that
is, every wrapped crop succeeded — otherwise the wrapped crop's exception
propagates and no list is returned), the returned ordered list has length
equal to the configured num_samples. -/
theorem randSpatialCropSamples_spec (roiSize : List Nat) (numSamples : Int)
    (randomCenter randomSize : Bool) (img : Img) (g : Nat) :
    (numSamples < 1 →
      randSpatialCropSamplesInit roiSize numSamples randomCenter randomSize
        = .error msgNumSamples) ∧
    (∀ t, randSpatialCropSamplesInit roiSize numSamples randomCenter randomSize = .ok t →
      ∀ out, (randSpatialCropSamplesCall t img g).1 = .ok out →
        (out.length : Int) = numSamples) := by
  constructor
  · intro h
    unfold randSpatialCropSamplesInit
    rw [if_pos h]
  · intro t ht out hout
    unfold randSpatialCropSamplesInit at ht
    split at ht
    · exact absurd ht (by simp)
    · rename_i hge
      have hts : t = ⟨numSamples, roiSize, randomCenter, randomSize⟩ :=
        (Except.ok.inj ht).symm
      subst hts
      unfold randSpatialCropSamplesCall at hout
      have hlen := repeatCrop_length roiSize randomCenter randomSize img
        numSamples.toNat g out hout
      omega

def imgW9 : Img := ⟨[1, 5], fun _ => 1⟩

theorem randSpatialCropSamples_spec_witness :
    randSpatialCropSamplesInit [2] 3 false false = .ok ⟨3, [2], false, false⟩ ∧
    (∀ out, (randSpatialCropSamplesCall ⟨3, [2], false, false⟩ imgW9 7).1 = .ok out →
      (out.length : Int) = 3) :=
  ⟨rfl, (randSpatialCropSamples_spec [2] 3 false false imgW9 7).2
    ⟨3, [2], false, false⟩ rfl⟩

/-! ### uint16 wrap facts shared by C10 and C1 -/

theorem validateRoi_ne_start (s e : List Nat) : validateRoi s e ≠ .error msgRoiStart := by
  intro h
  unfold validateRoi at h
  rw [show (! s.all fun x => decide (0 ≤ x)) = false by simp] at h
  simp only [Bool.false_eq_true, if_false] at h
  split at h
  · exact absurd (Except.error.inj h) (by decide)
  · split at h
    · exact absurd (Except.error.inj h) (by decide)
    · exact absurd h (by simp)

theorem validateRoi_ok_iff (s e : List Nat) :
    cropInitOk (validateRoi s e)
      = (e.all (fun x => decide (0 < x)) && leAll s e) := by
  unfold validateRoi
  rw [show (! s.all fun x => decide (0 ≤ x)) = false by simp]
  cases he : e.all (fun x => decide (0 < x)) <;> cases hl : leAll s e <;>
    simp [cropInitOk, he, hl]

theorem leAll_zipWith {α β : Type} (f g : α → β → Nat) :
    ∀ (a : List α) (b : List β),
      leAll (List.zipWith f a b) (List.zipWith g a b)
        = (List.zip a b).all (fun p => decide (f p.1 p.2 ≤ g p.1 p.2)) := by
  intro a
  induction a with
  | nil => intro b; rfl
  | cons x xs ih =>
    intro b
    cases b with
    | nil => rfl
    | cons y ys => simp [leAll, List.zip_cons_cons, ih ys]

theorem startF_wrap (c s : Int) (hc0 : 0 ≤ c) (hc1 : c < 65536)
    (hs0 : 0 ≤ s) (hs1 : s < 65536) (hneg : c - s / 2 < 0) :
    (startF c s : Int) = c - s / 2 + 65536 ∧ 0 < startF c s ∧ startF c s < 65536 ∧
    endF c s < startF c s := by
  unfold endF startF u16
  omega

/-! ### C10: uint16 coercion and wrap-around of SpatialCrop coordinates -/

/-- C10: SpatialCrop coerces the ROI coordinates to unsigned 16-bit values,
so coordinate arithmetic is performed modulo 2^16: for center and size in
the uint16 value range with center - size // 2 < 0, the computed start wraps
to the large positive value center - size // 2 + 2^16 instead of being
negative, and the construction-time check start >= 0 can never observe a
negative value (all computed starts are non-negative and neither
construction path can fail with the roi_start error). -/
theorem spatialCrop_uint16_wrap (c s : Int) (center size : List Int)
    (hc0 : 0 ≤ c) (hc1 : c < 65536) (hs0 : 0 ≤ s) (hs1 : s < 65536)
    (hneg : c - s / 2 < 0) :
    (startF c s : Int) = c - s / 2 + 65536 ∧ 0 < startF c s ∧
    (∀ x ∈ cropStartCS center size, 0 ≤ x) ∧
    spatialCropInitCS center size ≠ .error msgRoiStart ∧
    spatialCropInitSE center size ≠ .error msgRoiStart := by
  obtain ⟨h1, h2, h3, h4⟩ := startF_wrap c s hc0 hc1 hs0 hs1 hneg
  exact ⟨h1, h2, fun x _ => Nat.zero_le x,
    validateRoi_ne_start _ _, validateRoi_ne_start _ _⟩

theorem spatialCrop_uint16_wrap_witness :
    ((0 : Int) ≤ 0) ∧ ((0 : Int) < 65536) ∧ ((0 : Int) ≤ 4) ∧ ((4 : Int) < 65536) ∧
    ((0 : Int) - 4 / 2 < 0) ∧
    ((startF 0 4 : Int) = 0 - 4 / 2 + 65536 ∧ 0 < startF 0 4 ∧
     (∀ x ∈ cropStartCS [0] [4], 0 ≤ x) ∧
     spatialCropInitCS [0] [4] ≠ .error msgRoiStart ∧
     spatialCropInitSE [0] [4] ≠ .error msgRoiStart) :=
  ⟨by decide, by decide, by decide, by decide, by decide,
    spatialCrop_uint16_wrap 0 4 [0] [4] (by decide) (by decide) (by decide)
      (by decide) (by decide)⟩

/-! ### C1: validation at SpatialCrop construction (corrected) -/

/-- C1 counterexample: center 65535 with size 2 satisfies the claimed
mathematical acceptance conditions (start = 65535 - 2 // 2 = 65534 >= 0,
end = start + 2 = 65536 > 0, end >= start), so the claim says construction
succeeds, yet the code rejects it: end wraps to 0 in uint16 arithmetic and
the positivity check on roi_end fires. -/
theorem spatialCropInitCS_wrap_cex :
    ((0 : Int) ≤ 65535 - 2 / 2) ∧ ((0 : Int) < 65535 - 2 / 2 + 2) ∧
    ((65535 - 2 / 2 : Int) ≤ 65535 - 2 / 2 + 2) ∧
    spatialCropInitCS [(65535 : Int)] [(2 : Int)] = .error msgRoiEnd :=
  ⟨by decide, by decide, by decide, rfl⟩

/-- C1 amended: on both construction paths the coordinates are first reduced
modulo 2^16 (uint16); construction succeeds if and only if, after that
reduction, every end coordinate is positive and every end coordinate is at
least the corresponding start, so the start >= 0 check never fails; in
particular, for center and size values inside [0, 2^16), any coordinate
with center - size // 2 < 0 still leads to rejection at construction time. -/
theorem spatialCropInit_mod_spec (center size roiStart roiEnd : List Int) :
    cropInitOk (spatialCropInitCS center size)
      = ((cropEndCS center size).all (fun x => decide (0 < x))
          && leAll (cropStartCS center size) (cropEndCS center size)) ∧
    cropInitOk (spatialCropInitSE roiStart roiEnd)
      = ((roiEnd.map u16).all (fun x => decide (0 < x))
          && leAll (roiStart.map u16) (roiEnd.map u16)) ∧
    spatialCropInitCS center size ≠ .error msgRoiStart ∧
    spatialCropInitSE roiStart roiEnd ≠ .error msgRoiStart ∧
    (∀ p ∈ List.zip center size,
      0 ≤ p.1 → p.1 < 65536 → 0 ≤ p.2 → p.2 < 65536 → p.1 - p.2 / 2 < 0 →
      cropInitOk (spatialCropInitCS center size) = false) := by
  refine ⟨validateRoi_ok_iff _ _, validateRoi_ok_iff _ _,
    validateRoi_ne_start _ _, validateRoi_ne_start _ _, ?_⟩
  intro p hp h1 h2 h3 h4 h5
  obtain ⟨hw1, hw2, hw3, hlt⟩ := startF_wrap p.1 p.2 h1 h2 h3 h4 h5
  unfold spatialCropInitCS
  rw [validateRoi_ok_iff]
  have hfalse : leAll (cropStartCS center size) (cropEndCS center size) = false := by
    unfold cropStartCS cropEndCS
    rw [leAll_zipWith startF endF center size]
    cases hall : (List.zip center size).all (fun q => decide (startF q.1 q.2 ≤ endF q.1 q.2))
    · rfl
    · exfalso
      have hle : startF p.1 p.2 ≤ endF p.1 p.2 :=
        of_decide_eq_true (List.all_eq_true.mp hall p hp)
      omega
  rw [hfalse, Bool.and_false]

theorem spatialCropInit_mod_spec_witness :
    cropInitOk (spatialCropInitCS [(1 : Int)] [(4 : Int)]) = false :=
  (spatialCropInit_mod_spec [1] [4] [0] [2]).2.2.2.2 (1, 4) (by decide)
    (by decide) (by decide) (by decide) (by decide) (by decide)

/-! ### C3: SpatialCrop call-time behavior -/

theorem leAll_nil_left (x : List Nat) : leAll [] x = true := by cases x <;> rfl

theorem leAll_nil_right (x : List Nat) : leAll x [] = true := by cases x <;> rfl

theorem leAll_cons_cons (x y : Nat) (xs ys : List Nat) :
    leAll (x :: xs) (y :: ys) = (decide (x ≤ y) && leAll xs ys) := rfl

theorem validateRoi_ok (s e : List Nat) (t : SpatialCropT)
    (h : validateRoi s e = .ok t) :
    t.roi_start = s ∧ t.roi_end = e ∧ leAll s e = true := by
  unfold validateRoi at h
  split at h
  · exact absurd h (by simp)
  · split at h
    · exact absurd h (by simp)
    · split at h
      · exact absurd h (by simp)
      · rename_i h3
        obtain rfl : SpatialCropT.mk s e = t := Except.ok.inj h
        refine ⟨rfl, rfl, ?_⟩
        revert h3
        cases leAll s e <;> simp

theorem leAll_take : ∀ (a b : List Nat) (n : Nat),
    leAll a b = true → leAll (a.take n) (b.take n) = true := by
  intro a
  induction a with
  | nil => intro b n _; simp [List.take_nil, leAll_nil_left]
  | cons x xs ih =>
    intro b n h
    cases b with
    | nil => simp [List.take_nil, leAll_nil_right]
    | cons y ys =>
      cases n with
      | zero => simp [leAll_nil_left]
      | succ m =>
        rw [List.take_succ_cons, List.take_succ_cons, leAll_cons_cons]
        rw [leAll_cons_cons] at h
        simp only [Bool.and_eq_true] at h ⊢
        exact ⟨h.1, ih ys m h.2⟩

theorem leAll_trans : ∀ (a b c : List Nat), a.length = b.length →
    leAll a b = true → leAll b c = true → leAll a c = true := by
  intro a
  induction a with
  | nil => intro b c _ _ _; exact leAll_nil_left c
  | cons x xs ih =>
    intro b c hlen h1 h2
    cases b with
    | nil => simp at hlen
    | cons y ys =>
      cases c with
      | nil => exact leAll_nil_right _
      | cons z zs =>
        rw [leAll_cons_cons] at h1 h2 ⊢
        simp only [Bool.and_eq_true, decide_eq_true_eq] at h1 h2 ⊢
        exact ⟨le_trans h1.1 h2.1, ih ys zs (by simpa using hlen) h1.2 h2.2⟩

/-- C3: for every validly constructed SpatialCrop on the (roi_start, roi_end)
path applied to an array whose checked spatial extents are at least roi_end,
the call succeeds and returns the slice selecting the half-open range
[start_i, end_i) per checked spatial dimension (spatial extents exactly
roi_end - roi_start), the full channel dimension, and the full extent of any
spatial dimension beyond the ROI rank. -/
theorem spatialCrop_call_spec (roiStart roiEnd : List Int) (t : SpatialCropT)
    (img : Img) (hlen : roiStart.length = roiEnd.length)
    (hinit : spatialCropInitSE roiStart roiEnd = .ok t)
    (hfit : leAll (t.roi_end.take (sdOf t img))
      ((img.shape.drop 1).take (sdOf t img)) = true) :
    spatialCropCall t img
      = .ok (cropImg img (t.roi_start.take (sdOf t img)) (t.roi_end.take (sdOf t img))) ∧
    (cropImg img (t.roi_start.take (sdOf t img)) (t.roi_end.take (sdOf t img))).shape
      = img.shape.take 1
        ++ List.zipWith (fun ei si => ei - si) (t.roi_end.take (sdOf t img))
            (t.roi_start.take (sdOf t img))
        ++ (img.shape.drop 1).drop (sdOf t img) ∧
    ∀ idx, (cropImg img (t.roi_start.take (sdOf t img)) (t.roi_end.take (sdOf t img))).data idx
      = img.data (idx.take 1
          ++ List.zipWith (fun i si => i + si) ((idx.drop 1).take (sdOf t img))
              (t.roi_start.take (sdOf t img))
          ++ idx.drop (1 + sdOf t img)) := by
  obtain ⟨hs, he, hse⟩ :=
    validateRoi_ok (roiStart.map u16) (roiEnd.map u16) t hinit
  rw [← hs, ← he] at hse
  have hsd_le_start : sdOf t img ≤ t.roi_start.length := Nat.min_le_left _ _
  have hsd_le_end : sdOf t img ≤ t.roi_end.length := by
    have : t.roi_start.length = t.roi_end.length := by
      rw [hs, he]; simp [hlen]
    omega
  have hlen_take_s : (t.roi_start.take (sdOf t img)).length = sdOf t img := by
    simp only [List.length_take]; omega
  have hlen_take_e : (t.roi_end.take (sdOf t img)).length = sdOf t img := by
    simp only [List.length_take]; omega
  have hstart : leAll (t.roi_start.take (sdOf t img))
      ((img.shape.drop 1).take (sdOf t img)) = true := by
    apply leAll_trans _ (t.roi_end.take (sdOf t img)) _
    · rw [hlen_take_s, hlen_take_e]
    · exact leAll_take _ _ _ hse
    · exact hfit
  refine ⟨?_, ?_, ?_⟩
  · simp only [spatialCropCall]
    rw [hstart, hfit]
    rfl
  · simp only [cropImg]
    rw [hlen_take_s]
  · intro idx
    simp only [cropImg]
    rw [hlen_take_s]

def imgW3 : Img := ⟨[1, 3], fun idx => (idx.getD 1 0 : Int) * 10⟩

theorem spatialCrop_call_spec_witness :
    ([(0 : Int)].length = [(2 : Int)].length) ∧
    spatialCropInitSE [(0 : Int)] [(2 : Int)] = .ok ⟨[0], [2]⟩ ∧
    leAll ((SpatialCropT.mk [0] [2]).roi_end.take (sdOf ⟨[0], [2]⟩ imgW3))
      ((imgW3.shape.drop 1).take (sdOf ⟨[0], [2]⟩ imgW3)) = true ∧
    spatialCropCall ⟨[0], [2]⟩ imgW3
      = .ok (cropImg imgW3
          ((SpatialCropT.mk [0] [2]).roi_start.take (sdOf ⟨[0], [2]⟩ imgW3))
          ((SpatialCropT.mk [0] [2]).roi_end.take (sdOf ⟨[0], [2]⟩ imgW3))) :=
  ⟨rfl, rfl, rfl,
    (spatialCrop_call_spec [0] [2] ⟨[0], [2]⟩ imgW3 rfl rfl rfl).1⟩

/-! ### C2: pad-then-crop round trip (corrected) -/

def imgA : Img :=
  ⟨[1, 3], fun idx =>
    match idx with
    | [0, 0] => 1
    | [0, 1] => 2
    | [0, 2] => 3
    | _ => 0⟩

/-- C2 counterexample: for the one-channel length-3 array [1, 2, 3] and
divisor 2, DivisiblePad pads to [1, 2, 3, 0] (symmetric split puts the odd
unit at the trailing side) but CenterSpatialCrop of size 3 starts at
4 // 2 - 3 // 2 = 1, so the round trip returns [2, 3, 0], which differs from
the original at the in-bounds index [0, 0]. -/
theorem padCropRoundTrip_cex :
    (padCropRoundTrip [(2 : Int)] imgA).map Img.shape = .ok imgA.shape ∧
    inBoundsB imgA.shape [0, 0] = true ∧
    (padCropRoundTrip [(2 : Int)] imgA).map (fun o => o.data [0, 0]) = .ok 2 ∧
    imgA.data [0, 0] = 1 ∧ (2 : Int) ≠ 1 :=
  ⟨rfl, rfl, rfl, rfl, by decide⟩

theorem zipWith_left_comp {α β γ δ : Type} (f : γ → β → δ) (g : α → β → γ) :
    ∀ (a : List α) (b : List β),
      List.zipWith f (List.zipWith g a b) b
        = List.zipWith (fun x y => f (g x y) y) a b := by
  intro a
  induction a with
  | nil => intro b; rfl
  | cons x xs ih =>
    intro b
    cases b with
    | nil => rfl
    | cons y ys => simp only [List.zipWith_cons_cons, ih ys]

theorem zipWith_pair {α β γ : Type} (h : Nat → Nat → γ) (f g : α → β → Nat) :
    ∀ (a : List α) (b : List β),
      List.zipWith h (List.zipWith f a b) (List.zipWith g a b)
        = List.zipWith (fun x y => h (f x y) (g x y)) a b := by
  intro a
  induction a with
  | nil => intro b; rfl
  | cons x xs ih =>
    intro b
    cases b with
    | nil => rfl
    | cons y ys => simp only [List.zipWith_cons_cons, ih ys]

theorem zipWith_congr_mem {α β γ : Type} (f g : α → β → γ) :
    ∀ (a : List α) (b : List β), (∀ p ∈ List.zip a b, f p.1 p.2 = g p.1 p.2) →
      List.zipWith f a b = List.zipWith g a b := by
  intro a
  induction a with
  | nil => intro b _; rfl
  | cons x xs ih =>
    intro b h
    cases b with
    | nil => rfl
    | cons y ys =>
      simp only [List.zipWith_cons_cons]
      rw [h (x, y) (by simp [List.zip_cons_cons]),
        ih ys (fun q hq => h q (by simp [List.zip_cons_cons, hq]))]

theorem zipWith_snd_of_len {α : Type} :
    ∀ (a : List α) (b : List Nat), a.length = b.length →
      List.zipWith (fun _ d => d) a b = b := by
  intro a
  induction a with
  | nil =>
    intro b h
    cases b with
    | nil => rfl
    | cons y ys => simp at h
  | cons x xs ih =>
    intro b h
    cases b with
    | nil => simp at h
    | cons y ys => simp only [List.zipWith_cons_cons, ih ys (by simpa using h)]

theorem newDim_ge (kd : Int) (d : Nat) : d ≤ newDimF kd d := by
  unfold newDimF
  split
  · rename_i hk
    unfold ceilDiv
    have hk1 : 1 ≤ kd.toNat := by omega
    have hdm := Nat.div_add_mod (d + kd.toNat - 1) kd.toNat
    have hmod : (d + kd.toNat - 1) % kd.toNat < kd.toNat := Nat.mod_lt _ (by omega)
    rw [Nat.mul_comm]
    generalize hA : kd.toNat * ((d + kd.toNat - 1) / kd.toNat) = A at hdm
    omega
  · exact Nat.le_refl d

theorem symPad_all_zero_eq : ∀ (sz sp : List Nat), sz.length = sp.length →
    (∀ p ∈ List.zip sz sp, p.2 ≤ p.1) →
    (List.zipWith symPad sz sp).all (fun p => p.1 == 0 && p.2 == 0) = true →
    sz = sp := by
  intro sz
  induction sz with
  | nil =>
    intro sp h _ _
    cases sp with
    | nil => rfl
    | cons d ds => simp at h
  | cons t ts ih =>
    intro sp hlen hge hz
    cases sp with
    | nil => simp at hlen
    | cons d ds =>
      simp only [List.zipWith_cons_cons, List.all_cons, Bool.and_eq_true,
        beq_iff_eq] at hz
      have hged : d ≤ t := hge (t, d) (by simp [List.zip_cons_cons])
      have htd : t = d := by
        have h1 := hz.1.1
        have h2 := hz.1.2
        simp only [symPad] at h1 h2
        omega
      rw [htd, ih ds (by simpa using hlen)
        (fun q hq => hge q (by simp [List.zip_cons_cons, hq])) hz.2]

theorem zipWith_half_self : ∀ (sp : List Nat),
    List.zipWith (fun t d => (t - d) / 2) sp sp = List.replicate sp.length 0 := by
  intro sp
  induction sp with
  | nil => rfl
  | cons d ds ih =>
    simp only [List.zipWith_cons_cons, List.length_cons, List.replicate_succ, ih,
      Nat.sub_self, Nat.zero_div]

theorem zipWith_add_replicate_zero : ∀ (rest : List Nat) (n : Nat),
    rest.length = n →
    List.zipWith (fun i h => i + h) rest (List.replicate n 0) = rest := by
  intro rest
  induction rest with
  | nil => intro n _; simp
  | cons i is ih =>
    intro n h
    cases n with
    | zero => simp at h
    | succ m =>
      simp only [List.replicate_succ, List.zipWith_cons_cons, Nat.add_zero,
        ih m (by simpa using h)]

theorem pad_shape_list : ∀ (sz sp : List Nat), sz.length = sp.length →
    (∀ p ∈ List.zip sz sp, p.2 ≤ p.1) →
    List.zipWith (fun s pr => pr.1 + s + pr.2) sp (List.zipWith symPad sz sp) = sz := by
  intro sz
  induction sz with
  | nil =>
    intro sp h _
    cases sp with
    | nil => rfl
    | cons d ds => simp at h
  | cons t ts ih =>
    intro sp hlen hge
    cases sp with
    | nil => simp at hlen
    | cons d ds =>
      have hged : d ≤ t := hge (t, d) (by simp [List.zip_cons_cons])
      simp only [List.zipWith_cons_cons]
      rw [ih ds (by simpa using hlen)
        (fun q hq => hge q (by simp [List.zip_cons_cons, hq]))]
      unfold symPad
      simp only
      congr 1
      omega

theorem inPadInterior_shift : ∀ (rest hw sp : List Nat), hw.length = sp.length →
    rest.length = sp.length → (∀ q ∈ List.zip rest sp, q.1 < q.2) →
    inPadInterior (List.zipWith (fun i h => i + h) rest hw) hw sp = true := by
  intro rest
  induction rest with
  | nil => intro hw sp h1 h2 _; cases hw <;> cases sp <;> first | rfl | simp at h1 h2
  | cons i is ih =>
    intro hw sp h1 h2 hb
    cases hw with
    | nil =>
      cases sp with
      | nil => rfl
      | cons d ds => simp at h1
    | cons h hs =>
      cases sp with
      | nil => simp at h1
      | cons d ds =>
        have hid : i < d := hb (i, d) (by simp [List.zip_cons_cons])
        simp only [List.zipWith_cons_cons, inPadInterior, Bool.and_eq_true,
          decide_eq_true_eq]
        refine ⟨⟨by omega, by omega⟩, ?_⟩
        exact ih hs ds (by simpa using h1) (by simpa using h2)
          (fun q hq => hb q (by simp [List.zip_cons_cons, hq]))

theorem zipWith_add_sub_cancel : ∀ (rest hw : List Nat), rest.length = hw.length →
    List.zipWith (fun i b => i - b)
      (List.zipWith (fun i h => i + h) rest hw) hw = rest := by
  intro rest
  induction rest with
  | nil => intro hw _; rfl
  | cons i is ih =>
    intro hw h
    cases hw with
    | nil => simp at h
    | cons b bs =>
      simp only [List.zipWith_cons_cons, Nat.add_sub_cancel,
        ih bs (by simpa using h)]

theorem inBoundsB_spec : ∀ (sp rest : List Nat), inBoundsB sp rest = true →
    rest.length = sp.length ∧ ∀ q ∈ List.zip rest sp, q.1 < q.2 := by
  intro sp
  induction sp with
  | nil =>
    intro rest h
    cases rest with
    | nil => exact ⟨rfl, by simp⟩
    | cons i is => exact absurd h (by simp [inBoundsB])
  | cons d ds ih =>
    intro rest h
    cases rest with
    | nil => exact absurd h (by simp [inBoundsB])
    | cons i is =>
      simp only [inBoundsB, Bool.and_eq_true, decide_eq_true_eq] at h
      obtain ⟨hlen, hall⟩ := ih is h.2
      refine ⟨by simpa using hlen, ?_⟩
      intro q hq
      rw [List.zip_cons_cons] at hq
      rcases List.mem_cons.mp hq with rfl | hq2
      · exact h.1
      · exact hall q hq2

theorem npPadConstant_shape (img : Img) (pw : List (Nat × Nat)) :
    (npPadConstant img pw).shape
      = List.zipWith (fun s p => p.1 + s + p.2) img.shape pw := rfl

theorem npPadConstant_data (img : Img) (pw : List (Nat × Nat)) (idx : List Nat)
    (hin : inPadInterior idx (pw.map Prod.fst) img.shape = true) :
    (npPadConstant img pw).data idx
      = img.data (List.zipWith (fun i b => i - b) idx (pw.map Prod.fst)) := by
  unfold npPadConstant
  simp only
  rw [if_pos hin]

theorem spatialPad_shape_data (sz : List Nat) (img : Img) (ch : Nat) (sp : List Nat)
    (himg : img.shape = ch :: sp) (hlen : sz.length = sp.length)
    (hge : ∀ p ∈ List.zip sz sp, p.2 ≤ p.1) :
    (spatialPadCall sz "symmetric" img).shape = ch :: sz ∧
    (∀ c0 rest, c0 < ch → rest.length = sp.length →
      (∀ q ∈ List.zip rest sp, q.1 < q.2) →
      (spatialPadCall sz "symmetric" img).data
          (c0 :: List.zipWith (fun i h => i + h) rest
            (List.zipWith (fun t d => (t - d) / 2) sz sp))
        = img.data (c0 :: rest)) := by
  have hspatial : img.shape.drop 1 = sp := by rw [himg]; rfl
  have hdet : determineDataPadWidth sz "symmetric" (img.shape.drop 1)
      = List.zipWith symPad sz sp := by
    rw [hspatial]
    unfold determineDataPadWidth
    rw [if_pos rfl]
  unfold spatialPadCall
  rw [hdet]
  by_cases hz : (((0, 0) :: List.zipWith symPad sz sp).all
      (fun p => p.1 == 0 && p.2 == 0)) = true
  · rw [if_pos hz]
    have hsz : sz = sp := by
      apply symPad_all_zero_eq sz sp hlen hge
      simpa using hz
    constructor
    · rw [himg, hsz]
    · intro c0 rest _ hrl hrb
      rw [hsz, zipWith_half_self, zipWith_add_replicate_zero rest _ hrl]
  · rw [if_neg hz]
    have hhw : ((0, 0) :: List.zipWith symPad sz sp).map Prod.fst
        = 0 :: List.zipWith (fun t d => (t - d) / 2) sz sp := by
      rw [List.map_cons, List.map_zipWith]
      rfl
    have hwlen : (List.zipWith (fun t d => (t - d) / 2) sz sp).length = sp.length := by
      rw [List.length_zipWith]
      omega
    constructor
    · rw [npPadConstant_shape, himg, List.zipWith_cons_cons,
        pad_shape_list sz sp hlen hge]
      norm_num
    · intro c0 rest hc0 hrl hrb
      have hinterior : inPadInterior
          (c0 :: List.zipWith (fun i h => i + h) rest
            (List.zipWith (fun t d => (t - d) / 2) sz sp))
          (((0, 0) :: List.zipWith symPad sz sp).map Prod.fst) img.shape = true := by
        rw [hhw, himg]
        have htail := inPadInterior_shift rest
          (List.zipWith (fun t d => (t - d) / 2) sz sp) sp hwlen hrl hrb
        unfold inPadInterior
        rw [htail]
        simp [hc0]
      rw [npPadConstant_data img _ _ hinterior, hhw, List.zipWith_cons_cons,
        zipWith_add_sub_cancel rest _ (by omega), Nat.sub_zero]

theorem ns_ge_sp : ∀ (k : List Int) (sp : List Nat),
    ∀ p ∈ List.zip (List.zipWith newDimF k sp) sp, p.2 ≤ p.1 := by
  intro k
  induction k with
  | nil => intro sp p hp; simp at hp
  | cons kd ks ih =>
    intro sp p hp
    cases sp with
    | nil => simp at hp
    | cons d ds =>
      rw [List.zipWith_cons_cons, List.zip_cons_cons] at hp
      rcases List.mem_cons.mp hp with h | h
      · rw [h]; exact newDim_ge kd d
      · exact ih ds p h

theorem all_zipWith {α β : Type} (f : α → β → Nat) (q : Nat → Bool) :
    ∀ (a : List α) (b : List β),
      (List.zipWith f a b).all q = (List.zip a b).all (fun p => q (f p.1 p.2)) := by
  intro a
  induction a with
  | nil => intro b; rfl
  | cons x xs ih =>
    intro b
    cases b with
    | nil => rfl
    | cons y ys =>
      simp only [List.zipWith_cons_cons, List.zip_cons_cons, List.all_cons, ih ys]

theorem validateRoi_ok_of (s e : List Nat)
    (he : e.all (fun x => decide (0 < x)) = true) (hle : leAll s e = true) :
    validateRoi s e = .ok ⟨s, e⟩ := by
  unfold validateRoi
  rw [show (! s.all fun x => decide (0 ≤ x)) = false by simp, he, hle]
  rfl

theorem center_crop_dim (nd d : Nat) (hd : 1 ≤ d) (hnd : d ≤ nd) (hlt : nd < 65536)
    (hpar : d % 2 = 0 ∨ (nd - d) % 2 = 0) :
    startF ((nd / 2 : Nat) : Int) ((d : Nat) : Int) = (nd - d) / 2 ∧
    endF ((nd / 2 : Nat) : Int) ((d : Nat) : Int) = (nd - d) / 2 + d := by
  have hu : ∀ m : Nat, m < 65536 → u16 ((m : Nat) : Int) = m := by
    intro m hm
    unfold u16
    rw [Int.emod_eq_of_lt (by omega) (by omega)]
    simp
  unfold endF startF
  rw [hu (nd / 2) (by omega), hu d (by omega)]
  omega

theorem crop_lists : ∀ (k : List Int) (sp : List Nat), k.length = sp.length →
    (∀ p ∈ List.zip k sp, 1 ≤ p.2 ∧ newDimF p.1 p.2 < 65536 ∧
      (p.2 % 2 = 0 ∨ (newDimF p.1 p.2 - p.2) % 2 = 0)) →
    cropStartCS ((List.zipWith newDimF k sp).map (fun (i : Nat) => ((i / 2 : Nat) : Int)))
        (sp.map (fun (i : Nat) => (i : Int)))
      = List.zipWith (fun kd d => (newDimF kd d - d) / 2) k sp ∧
    cropEndCS ((List.zipWith newDimF k sp).map (fun (i : Nat) => ((i / 2 : Nat) : Int)))
        (sp.map (fun (i : Nat) => (i : Int)))
      = List.zipWith (fun kd d => (newDimF kd d - d) / 2 + d) k sp := by
  intro k
  induction k with
  | nil =>
    intro sp _ _
    cases sp with
    | nil => exact ⟨rfl, rfl⟩
    | cons d ds => exact ⟨rfl, rfl⟩
  | cons kd ks ih =>
    intro sp hlen hgood
    cases sp with
    | nil => simp at hlen
    | cons d ds =>
      have hg := hgood (kd, d) (by simp [List.zip_cons_cons])
      obtain ⟨ihs, ihe⟩ := ih ds (by simpa using hlen)
        (fun q hq => hgood q (by simp [List.zip_cons_cons, hq]))
      obtain ⟨h1, h2⟩ := center_crop_dim (newDimF kd d) d hg.1 (newDim_ge kd d)
        hg.2.1 hg.2.2
      unfold cropStartCS at ihs
      unfold cropEndCS at ihe
      unfold cropStartCS cropEndCS
      simp only [List.map_cons, List.zipWith_cons_cons]
      exact ⟨by rw [h1, ihs], by rw [h2, ihe]⟩

theorem en_all_pos (k : List Int) (sp : List Nat)
    (h : ∀ p ∈ List.zip k sp, 1 ≤ p.2) :
    (List.zipWith (fun kd d => (newDimF kd d - d) / 2 + d) k sp).all
      (fun x => decide (0 < x)) = true := by
  rw [all_zipWith]
  exact List.all_eq_true.mpr fun p hp => decide_eq_true (by have := h p hp; omega)

theorem leAll_hw_en (k : List Int) (sp : List Nat) :
    leAll (List.zipWith (fun kd d => (newDimF kd d - d) / 2) k sp)
      (List.zipWith (fun kd d => (newDimF kd d - d) / 2 + d) k sp) = true := by
  rw [leAll_zipWith]
  exact List.all_eq_true.mpr fun p _ => decide_eq_true (by omega)

theorem leAll_hw_ns (k : List Int) (sp : List Nat) :
    leAll (List.zipWith (fun kd d => (newDimF kd d - d) / 2) k sp)
      (List.zipWith newDimF k sp) = true := by
  rw [leAll_zipWith]
  exact List.all_eq_true.mpr fun p _ => decide_eq_true (by
    have := newDim_ge p.1 p.2
    omega)

theorem leAll_en_ns (k : List Int) (sp : List Nat) :
    leAll (List.zipWith (fun kd d => (newDimF kd d - d) / 2 + d) k sp)
      (List.zipWith newDimF k sp) = true := by
  rw [leAll_zipWith]
  exact List.all_eq_true.mpr fun p _ => decide_eq_true (by
    have := newDim_ge p.1 p.2
    omega)

theorem sub_en_hw (k : List Int) (sp : List Nat) (hlen : k.length = sp.length) :
    List.zipWith (fun ei si => ei - si)
      (List.zipWith (fun kd d => (newDimF kd d - d) / 2 + d) k sp)
      (List.zipWith (fun kd d => (newDimF kd d - d) / 2) k sp) = sp := by
  rw [zipWith_pair]
  rw [zipWith_congr_mem _ (fun (_ : Int) (d : Nat) => d) _ _
    (fun p _ => by simp only []; omega)]
  exact zipWith_snd_of_len k sp hlen

theorem spatialCropCall_full (s e : List Nat) (img2 : Img)
    (hslen : s.length = (img2.shape.drop 1).length)
    (helen : e.length = (img2.shape.drop 1).length)
    (h1 : leAll s (img2.shape.drop 1) = true)
    (h2 : leAll e (img2.shape.drop 1) = true) :
    spatialCropCall ⟨s, e⟩ img2 = .ok (cropImg img2 s e) := by
  have hts : s.take (min s.length (img2.shape.drop 1).length) = s := by
    rw [hslen, Nat.min_self, ← hslen, List.take_length]
  have hte : e.take (min s.length (img2.shape.drop 1).length) = e := by
    rw [hslen, Nat.min_self, ← helen, List.take_length]
  have htm : (img2.shape.drop 1).take (min s.length (img2.shape.drop 1).length)
      = img2.shape.drop 1 := by
    rw [hslen, Nat.min_self, List.take_length]
  unfold spatialCropCall sdOf
  simp only
  rw [hts, hte, htm, h1, h2]
  rfl

/-- C2 amended: the DivisiblePad-then-CenterSpatialCrop round trip recovers
the original array whenever, in every spatial dimension, the original size is
at least 1, the padded size stays below 2^16, and the original size or the
computed pad width is even; when both the size and the pad width of some
dimension are odd the crop is shifted one voxel toward the trailing side and
the round trip does not recover the original (see the counterexample). -/
theorem padCropRoundTrip_parity_spec (k : List Int) (img : Img) (ch : Nat)
    (sp : List Nat) (himg : img.shape = ch :: sp) (hlen : k.length = sp.length)
    (hdims : ∀ p ∈ List.zip k sp, 1 ≤ p.2 ∧ newDimF p.1 p.2 < 65536 ∧
      (p.2 % 2 = 0 ∨ (newDimF p.1 p.2 - p.2) % 2 = 0)) :
    (padCropRoundTrip k img).map Img.shape = .ok img.shape ∧
    ∀ idx, inBoundsB img.shape idx = true →
      (padCropRoundTrip k img).map (fun o => o.data idx) = .ok (img.data idx) := by
  have hspdrop : img.shape.drop 1 = sp := by rw [himg]; rfl
  have hnslen : (List.zipWith newDimF k sp).length = sp.length := by
    rw [List.length_zipWith]; omega
  have hhwlen : (List.zipWith (fun kd d => (newDimF kd d - d) / 2) k sp).length
      = sp.length := by
    rw [List.length_zipWith]; omega
  have henlen : (List.zipWith (fun kd d => (newDimF kd d - d) / 2 + d) k sp).length
      = sp.length := by
    rw [List.length_zipWith]; omega
  obtain ⟨hpadshape, hpaddata⟩ := spatialPad_shape_data (List.zipWith newDimF k sp)
    img ch sp himg hnslen (ns_ge_sp k sp)
  have hhw_eq : List.zipWith (fun t d => (t - d) / 2) (List.zipWith newDimF k sp) sp
      = List.zipWith (fun kd d => (newDimF kd d - d) / 2) k sp :=
    zipWith_left_comp _ _ k sp
  rw [hhw_eq] at hpaddata
  have hpsp : (spatialPadCall (List.zipWith newDimF k sp) "symmetric" img).shape.drop 1
      = List.zipWith newDimF k sp := by rw [hpadshape]; rfl
  obtain ⟨hcs, hce⟩ := crop_lists k sp hlen hdims
  have hinit : spatialCropInitCS
      (((spatialPadCall (List.zipWith newDimF k sp) "symmetric" img).shape.drop 1).map
        (fun (i : Nat) => ((i / 2 : Nat) : Int)))
      (sp.map (fun (i : Nat) => (i : Int)))
      = .ok ⟨List.zipWith (fun kd d => (newDimF kd d - d) / 2) k sp,
             List.zipWith (fun kd d => (newDimF kd d - d) / 2 + d) k sp⟩ := by
    rw [hpsp]
    unfold spatialCropInitCS
    rw [hcs, hce]
    exact validateRoi_ok_of _ _ (en_all_pos k sp (fun p hp => (hdims p hp).1))
      (leAll_hw_en k sp)
  have hmain : padCropRoundTrip k img
      = .ok (cropImg (spatialPadCall (List.zipWith newDimF k sp) "symmetric" img)
          (List.zipWith (fun kd d => (newDimF kd d - d) / 2) k sp)
          (List.zipWith (fun kd d => (newDimF kd d - d) / 2 + d) k sp)) := by
    unfold padCropRoundTrip divisiblePadCall
    rw [hspdrop]
    unfold centerSpatialCropCall
    rw [hinit]
    exact spatialCropCall_full _ _ _
      (by rw [hpsp, hhwlen, hnslen])
      (by rw [hpsp, henlen, hnslen])
      (by rw [hpsp]; exact leAll_hw_ns k sp)
      (by rw [hpsp]; exact leAll_en_ns k sp)
  have hshape2 : (cropImg (spatialPadCall (List.zipWith newDimF k sp) "symmetric" img)
      (List.zipWith (fun kd d => (newDimF kd d - d) / 2) k sp)
      (List.zipWith (fun kd d => (newDimF kd d - d) / 2 + d) k sp)).shape
      = img.shape := by
    unfold cropImg
    rw [sub_en_hw k sp hlen, hhwlen, hpadshape]
    rw [show (ch :: List.zipWith newDimF k sp).take 1 = [ch] from rfl,
      show (ch :: List.zipWith newDimF k sp).drop 1 = List.zipWith newDimF k sp from rfl]
    rw [show (List.zipWith newDimF k sp).drop sp.length = [] by
      rw [← hnslen]; exact List.drop_length _]
    rw [List.append_nil, List.singleton_append, himg]
  have hdata2 : ∀ idx, inBoundsB img.shape idx = true →
      (cropImg (spatialPadCall (List.zipWith newDimF k sp) "symmetric" img)
        (List.zipWith (fun kd d => (newDimF kd d - d) / 2) k sp)
        (List.zipWith (fun kd d => (newDimF kd d - d) / 2 + d) k sp)).data idx
      = img.data idx := by
    intro idx hidx
    rw [himg] at hidx
    cases idx with
    | nil => exact absurd hidx (by simp [inBoundsB])
    | cons c0 rest =>
      have hID : (decide (c0 < ch) && inBoundsB sp rest) = true := hidx
      simp only [Bool.and_eq_true, decide_eq_true_eq] at hID
      obtain ⟨hrl, hrb⟩ := inBoundsB_spec sp rest hID.2
      unfold cropImg
      simp only
      rw [hhwlen]
      rw [show (c0 :: rest).take 1 = [c0] from rfl,
        show (c0 :: rest).drop 1 = rest from rfl]
      rw [show rest.take sp.length = rest by rw [← hrl]; exact List.take_length rest]
      rw [Nat.add_comm 1 sp.length, List.drop_succ_cons]
      rw [show rest.drop sp.length = [] by rw [← hrl]; exact List.drop_length rest]
      rw [List.append_nil, List.singleton_append]
      exact hpaddata c0 rest hID.1 hrl hrb
  constructor
  · rw [hmain]
    simp only [Except.map]
    rw [hshape2]
  · intro idx hidx
    rw [hmain]
    simp only [Except.map]
    rw [hdata2 idx hidx]

def imgB : Img :=
  ⟨[1, 2], fun idx =>
    match idx with
    | [0, 0] => 5
    | [0, 1] => 6
    | _ => 0⟩

theorem padCropRoundTrip_parity_witness :
    imgB.shape = 1 :: [2] ∧ [(2 : Int)].length = [2].length ∧
    (∀ p ∈ List.zip [(2 : Int)] [2], 1 ≤ p.2 ∧ newDimF p.1 p.2 < 65536 ∧
      (p.2 % 2 = 0 ∨ (newDimF p.1 p.2 - p.2) % 2 = 0)) ∧
    ((padCropRoundTrip [(2 : Int)] imgB).map Img.shape = .ok imgB.shape ∧
     ∀ idx, inBoundsB imgB.shape idx = true →
       (padCropRoundTrip [(2 : Int)] imgB).map (fun o => o.data idx)
         = .ok (imgB.data idx)) :=
  ⟨rfl, rfl, by decide,
    padCropRoundTrip_parity_spec [2] imgB 1 [2] rfl rfl (by decide)⟩
